import Mathlib

/-!
Shallow embedding of the PCR primer analysis and design engine
(`cleanSequence`, `getComplement`, `reverseComplement`, `calculatePrimerProps`,
`designPrimers` from the primer page of the SidLab-Tools repository).

Modelling conventions:
* JS strings are `List Char`; `String.prototype.substring` is `jsSubstring`.
* JS numbers are exact rationals `ℚ`; the two transcendental library routines
  `Math.log` and `Math.log10` are passed in as function parameters
  `rln rlog10 : ℚ → ℚ`, so every definition stays computable and every theorem
  quantifies over them (none of the verified properties depends on their values).
* JS `Array.prototype.sort` with a numeric-key comparator is a stable sort by
  that key, modelled by `List.mergeSort` (stable) with the decidable `≤` on keys.
* Addition of the thermodynamic accumulators is exact in `ℚ`, so the
  accumulation order of the dinucleotide loop is immaterial; `nnFold` walks the
  same adjacent windows the source loop does.
-/

inductive Strand where
  | sense
  | antisense
deriving DecidableEq, Repr, Inhabited

/-- One entry of the SantaLucia 1998 nearest-neighbor table: enthalpy `dH`
(kcal/mol) and entropy `dS` (cal/mol·K). -/
structure NNEntry where
  dH : ℚ
  dS : ℚ
deriving DecidableEq, Repr, Inhabited

/-- The `NN_PARAMS` dinucleotide lookup table from the source; keys absent from
the table (any pair with a non-ATGC base) give `none`, matching the source's
`if (NN_PARAMS[pair])` guard. -/
def NN_PARAMS : Char → Char → Option NNEntry
  | 'A', 'A' => some ⟨-7.9, -22.2⟩
  | 'T', 'T' => some ⟨-7.9, -22.2⟩
  | 'A', 'T' => some ⟨-7.2, -20.4⟩
  | 'T', 'A' => some ⟨-7.2, -21.3⟩
  | 'C', 'A' => some ⟨-8.5, -22.7⟩
  | 'T', 'G' => some ⟨-8.5, -22.7⟩
  | 'G', 'T' => some ⟨-8.4, -22.4⟩
  | 'A', 'C' => some ⟨-8.4, -22.4⟩
  | 'C', 'T' => some ⟨-7.8, -21.0⟩
  | 'A', 'G' => some ⟨-7.8, -21.0⟩
  | 'G', 'A' => some ⟨-8.2, -22.2⟩
  | 'T', 'C' => some ⟨-8.2, -22.2⟩
  | 'C', 'G' => some ⟨-10.6, -27.2⟩
  | 'G', 'C' => some ⟨-9.8, -24.4⟩
  | 'G', 'G' => some ⟨-8.0, -19.9⟩
  | 'C', 'C' => some ⟨-8.0, -19.9⟩
  | _, _ => none

def NN_INIT_GC : NNEntry := ⟨0.1, -2.8⟩

def NN_INIT_AT : NNEntry := ⟨2.3, 4.1⟩

def DEFAULT_CONC_NA_MM : ℚ := 50

/-- `seq.replace(/[^a-zA-Z]/g, '').toUpperCase()` (the regex class is the ASCII
letters, matching `Char.isAlpha`). -/
def cleanSequence (seq : List Char) : List Char := (seq.filter Char.isAlpha).map Char.toUpper

def getComplement (base : Char) : Char :=
  if base = 'A' then 'T'
  else if base = 'T' then 'A'
  else if base = 'G' then 'C'
  else if base = 'C' then 'G'
  else if base = 'U' then 'A'
  else if base = 'N' then 'N'
  else 'N'

/-- `seq.split('').reverse().map(getComplement).join('')` -/
def reverseComplement (seq : List Char) : List Char := seq.reverse.map getComplement

/-- The `PrimerResult` record of the source (`gc` is the percentage field named
`gc` there, `error` the optional message). -/
structure PrimerResult where
  seq : List Char
  cleanSeq : List Char
  length : ℕ
  gc : ℚ
  tmBasic : ℚ
  tmNN : ℚ
  molecularWeight : ℚ
  isValid : Bool
  error : Option String
deriving DecidableEq, Repr, Inhabited

/-- The dinucleotide accumulation loop
`for (i = 0; i < length - 1; i++) { pair = cleanSeq.slice(i, i+2); if (NN_PARAMS[pair]) ... }`,
rendered as a structural walk over adjacent windows (addition in `ℚ` is exact,
so accumulation order does not matter). -/
def nnFold : List Char → NNEntry
  | a :: b :: rest =>
    let acc := nnFold (b :: rest)
    match NN_PARAMS a b with
    | some e => ⟨acc.dH + e.dH, acc.dS + e.dS⟩
    | none => acc
  | _ => ⟨0, 0⟩

/-- `calculatePrimerProps(rawSeq, primerConcNm)`; `rln`/`rlog10` stand for
`Math.log`/`Math.log10`.  The source indexes `cleanSeq[0]` and
`cleanSeq[length-1]` only on the nonempty path, so `headI`/`getLastD` defaults
are never observable. -/
def calculatePrimerProps (rln rlog10 : ℚ → ℚ) (rawSeq : List Char) (primerConcNm : ℚ) :
    PrimerResult :=
  let cleanSeq := cleanSequence rawSeq
  if cleanSeq = [] then
    { seq := rawSeq, cleanSeq := [], length := 0, gc := 0, tmBasic := 0, tmNN := 0,
      molecularWeight := 0, isValid := false, error := none }
  else if cleanSeq.any (fun ch => !(decide (ch = 'A' ∨ ch = 'T' ∨ ch = 'G' ∨ ch = 'C'))) then
    { seq := rawSeq, cleanSeq := cleanSeq, length := cleanSeq.length, gc := 0, tmBasic := 0,
      tmNN := 0, molecularWeight := 0, isValid := false, error := some "Contains non-ATGC" }
  else
    let length := cleanSeq.length
    let g := cleanSeq.count 'G'
    let c := cleanSeq.count 'C'
    let a := cleanSeq.count 'A'
    let t := cleanSeq.count 'T'
    let gcPercent : ℚ := ((g : ℚ) + (c : ℚ)) / (length : ℚ) * 100
    let mw : ℚ := (a : ℚ) * 313.2 + (c : ℚ) * 289.2 + (g : ℚ) * 329.2 + (t : ℚ) * 304.2 - 61.96
    let tmBasic : ℚ :=
      if length < 14 then ((a : ℚ) + (t : ℚ)) * 2 + ((g : ℚ) + (c : ℚ)) * 4
      else 64.9 + 41 * ((g : ℚ) + (c : ℚ) - 16.4) / (length : ℚ)
    let first := cleanSeq.headI
    let last := cleanSeq.getLastD 'A'
    let init1 := if first = 'G' ∨ first = 'C' then NN_INIT_GC else NN_INIT_AT
    let init2 := if last = 'G' ∨ last = 'C' then NN_INIT_GC else NN_INIT_AT
    let stack := nnFold cleanSeq
    let dH := init1.dH + init2.dH + stack.dH
    let dS := init1.dS + init2.dS + stack.dS
    let saltCorr := 16.6 * rlog10 (DEFAULT_CONC_NA_MM / 1000)
    let R : ℚ := 1.987
    let Ct := primerConcNm * 1e-9
    let term := R * rln (Ct / 4)
    let tmNN := dH * 1000 / (dS + term) - 273.15 + saltCorr
    { seq := rawSeq, cleanSeq := cleanSeq, length := length, gc := gcPercent, tmBasic := tmBasic,
      tmNN := tmNN, molecularWeight := mw, isValid := true, error := none }

structure CandidatePrimer extends PrimerResult where
  start : ℕ
  endPos : ℕ
  strand : Strand
deriving DecidableEq, Repr, Inhabited

structure DesignConfig where
  minProd : ℕ
  maxProd : ℕ
  minLen : ℕ
  maxLen : ℕ
  minTm : ℚ
  maxTm : ℚ
  optTm : ℚ
deriving DecidableEq, Repr, Inhabited

structure PrimerPair where
  id : String
  forward : CandidatePrimer
  reverse : CandidatePrimer
  productSize : ℕ
  tmDiff : ℚ
  score : ℚ
deriving DecidableEq, Repr, Inhabited

/-- JS `s.substring(start, stop)` for `start ≤ stop`. -/
def jsSubstring (s : List Char) (start stop : ℕ) : List Char := (s.drop start).take (stop - start)

/-- `seq.substring(i, i + l)` — the forward candidate sequence. -/
def fwdPrimerSeq (seq : List Char) (i l : ℕ) : List Char := jsSubstring seq i (i + l)

def fwdProps (rln rlog10 : ℚ → ℚ) (seq : List Char) (i l : ℕ) : PrimerResult :=
  calculatePrimerProps rln rlog10 (fwdPrimerSeq seq i l) 500

def mkForward (rln rlog10 : ℚ → ℚ) (seq : List Char) (i l : ℕ) : CandidatePrimer :=
  { toPrimerResult := fwdProps rln rlog10 seq i l, start := i, endPos := i + l - 1,
    strand := Strand.sense }

/-- The template segment `seq.substring(i - l + 1, i + 1)` whose reverse
complement is the reverse candidate. -/
def revTemplateSegment (seq : List Char) (i l : ℕ) : List Char :=
  jsSubstring seq (i - l + 1) (i + 1)

def revPrimerSeq (seq : List Char) (i l : ℕ) : List Char :=
  reverseComplement (revTemplateSegment seq i l)

def revProps (rln rlog10 : ℚ → ℚ) (seq : List Char) (i l : ℕ) : PrimerResult :=
  calculatePrimerProps rln rlog10 (revPrimerSeq seq i l) 500

def mkReverse (rln rlog10 : ℚ → ℚ) (seq : List Char) (i l : ℕ) : CandidatePrimer :=
  { toPrimerResult := revProps rln rlog10 seq i l, start := i - l + 1, endPos := i,
    strand := Strand.antisense }

/-- `props.isValid && props.tmNN >= minTm - 5 && props.tmNN <= maxTm + 5` —
the widened ("loose scan") pre-filter. -/
def tmPrefilter (cfg : DesignConfig) (p : PrimerResult) : Bool :=
  p.isValid && decide (cfg.minTm - 5 ≤ p.tmNN) && decide (p.tmNN ≤ cfg.maxTm + 5)

/-- The primer lengths `l = minLen, ..., maxLen` visited by the inner loops. -/
def lenRange (cfg : DesignConfig) : List ℕ := List.range' cfg.minLen (cfg.maxLen + 1 - cfg.minLen)

/-- The forward ("loose scan") enumeration:
`for (i = 0; i < len - minProd; i++) for (l = minLen; l <= maxLen; l++) { if (i + l > len) break; ... }`
(the `break` is rendered as skipping, which yields the same list since each
skipped iteration pushes nothing). -/
def forwardCandidates (rln rlog10 : ℚ → ℚ) (seq : List Char) (cfg : DesignConfig) :
    List CandidatePrimer :=
  (List.range (seq.length - cfg.minProd)).flatMap fun i =>
    (lenRange cfg).filterMap fun l =>
      if seq.length < i + l then none
      else if tmPrefilter cfg (fwdProps rln rlog10 seq i l) then
        some (mkForward rln rlog10 seq i l)
      else none

/-- The reverse enumeration:
`for (i = minProd; i < len; i++) for (l = minLen; l <= maxLen; l++) { if (i - l < 0) continue; ... }`. -/
def reverseCandidates (rln rlog10 : ℚ → ℚ) (seq : List Char) (cfg : DesignConfig) :
    List CandidatePrimer :=
  (List.range' cfg.minProd (seq.length - cfg.minProd)).flatMap fun i =>
    (lenRange cfg).filterMap fun l =>
      if i < l then none
      else if tmPrefilter cfg (revProps rln rlog10 seq i l) then
        some (mkReverse rln rlog10 seq i l)
      else none

/-- JS `s.endsWith(c)` for a single character. -/
def jsEndsWith (s : List Char) (ch : Char) : Bool := s.getLast? == some ch

/-- One iteration of the pairing loop: the chain of `continue` guards followed
by scoring and construction of the `PrimerPair` record. -/
def mkPair (cfg : DesignConfig) (f r : CandidatePrimer) : Option PrimerPair :=
  if r.endPos ≤ f.start then none
  else
    let pSize := r.endPos - f.start + 1
    if pSize < cfg.minProd ∨ cfg.maxProd < pSize then none
    else if f.tmNN < cfg.minTm ∨ cfg.maxTm < f.tmNN then none
    else if r.tmNN < cfg.minTm ∨ cfg.maxTm < r.tmNN then none
    else
      let tmDiff := |f.tmNN - r.tmNN|
      if 5 < tmDiff then none
      else
        let tmPenalty := |f.tmNN - cfg.optTm| + |r.tmNN - cfg.optTm|
        let diffPenalty := tmDiff * 2
        let gcPenalty := (|f.gc - 50| + |r.gc - 50|) * 0.1
        let fClamp : ℚ := if jsEndsWith f.seq 'G' ∨ jsEndsWith f.seq 'C' then 0 else 2
        let rClamp : ℚ := if jsEndsWith r.seq 'G' ∨ jsEndsWith r.seq 'C' then 0 else 2
        some { id := toString f.start ++ "-" ++ toString r.endPos, forward := f, reverse := r,
               productSize := pSize, tmDiff := tmDiff,
               score := tmPenalty + diffPenalty + gcPenalty + fClamp + rClamp }

def MAX_CANDIDATES : ℕ := 300

/-- Comparator of the candidate sorts: ascending `|tmNN - optTm|` (JS stable
sort with the numeric-difference comparator). -/
def tmDistLe (optTm : ℚ) (a b : CandidatePrimer) : Bool :=
  decide (|a.tmNN - optTm| ≤ |b.tmNN - optTm|)

/-- Comparator of the final sort: ascending `score`. -/
def scoreLe (a b : PrimerPair) : Bool := decide (a.score ≤ b.score)

/-- `designPrimers(template, config)`. -/
def designPrimers (rln rlog10 : ℚ → ℚ) (template : List Char) (cfg : DesignConfig) :
    List PrimerPair :=
  let seq := cleanSequence template
  let len := seq.length
  if len < cfg.minProd then []
  else
    let topFwd :=
      ((forwardCandidates rln rlog10 seq cfg).mergeSort (tmDistLe cfg.optTm)).take MAX_CANDIDATES
    let topRev :=
      ((reverseCandidates rln rlog10 seq cfg).mergeSort (tmDistLe cfg.optTm)).take MAX_CANDIDATES
    let pairs := topFwd.flatMap fun f => topRev.filterMap fun r => mkPair cfg f r
    (pairs.mergeSort scoreLe).take 20

/-!
Spec-side definitions (used only in the statements of refinement claims) and
fixed concrete inputs used by witnesses and counterexamples.
-/

/-- Modelled from the spec: the terminal initiation penalty — GC-initiation for
G/C ends, AT-initiation otherwise. -/
def specInit (ch : Char) : NNEntry := if ch = 'G' ∨ ch = 'C' then NN_INIT_GC else NN_INIT_AT

/-- All adjacent dinucleotide windows (sliding by one) of a sequence. -/
def adjacentPairs (s : List Char) : List (Char × Char) := s.zip s.tail

/-- Modelled from the spec: ΔH (kcal/mol) as the two terminal initiation
penalties plus the SantaLucia dinucleotide ΔH accumulated over every adjacent
base pair. -/
def spec_dH (s : List Char) : ℚ :=
  (specInit s.headI).dH + (specInit (s.getLastD 'A')).dH +
    ((adjacentPairs s).map fun ab => ((NN_PARAMS ab.1 ab.2).getD ⟨0, 0⟩).dH).sum

/-- Modelled from the spec: ΔS (cal/mol·K), same structure as `spec_dH`. -/
def spec_dS (s : List Char) : ℚ :=
  (specInit s.headI).dS + (specInit (s.getLastD 'A')).dS +
    ((adjacentPairs s).map fun ab => ((NN_PARAMS ab.1 ab.2).getD ⟨0, 0⟩).dS).sum

/-- Modelled from the spec: the claimed closed form
`Tm = (ΔH×1000)/(ΔS + 1.987×ln((c×1e-9)/4)) - 273.15 + 16.6×log10(0.05)`. -/
def specTmNN (rln rlog10 : ℚ → ℚ) (s : List Char) (c : ℚ) : ℚ :=
  spec_dH s * 1000 / (spec_dS s + 1.987 * rln (c * 1e-9 / 4)) - 273.15 + 16.6 * rlog10 0.05

/-- The pairing invariant the spec asserts for every returned `PrimerPair`. -/
def pairInvariant (cfg : DesignConfig) (p : PrimerPair) : Prop :=
  p.reverse.endPos > p.forward.start ∧
  p.productSize = p.reverse.endPos - p.forward.start + 1 ∧
  cfg.minProd ≤ p.productSize ∧ p.productSize ≤ cfg.maxProd ∧
  cfg.minTm ≤ p.forward.tmNN ∧ p.forward.tmNN ≤ cfg.maxTm ∧
  cfg.minTm ≤ p.reverse.tmNN ∧ p.reverse.tmNN ≤ cfg.maxTm ∧
  |p.forward.tmNN - p.reverse.tmNN| ≤ 5

/-- The structural invariant of the returned pairs: strand tags, coordinate
span equal to the cleaned primer length, and primer length within bounds. -/
def pairShape (cfg : DesignConfig) (p : PrimerPair) : Prop :=
  p.forward.strand = Strand.sense ∧ p.reverse.strand = Strand.antisense ∧
  p.forward.endPos - p.forward.start + 1 = p.forward.cleanSeq.length ∧
  p.reverse.endPos - p.reverse.start + 1 = p.reverse.cleanSeq.length ∧
  cfg.minLen ≤ p.forward.cleanSeq.length ∧ p.forward.cleanSeq.length ≤ cfg.maxLen ∧
  cfg.minLen ≤ p.reverse.cleanSeq.length ∧ p.reverse.cleanSeq.length ≤ cfg.maxLen

/-- A zero stand-in for the transcendental log parameters: the concrete
routines are irrelevant to every verified property, so witnesses fix them to
the constant-zero function. -/
def zfn : ℚ → ℚ := fun _ => 0

def wTemplate : List Char := "ATGGGCAT".toList

def wCfg : DesignConfig := ⟨7, 8, 3, 3, -1000, 1000, 0⟩

def cTemplate : List Char := "ATGCAT".toList

def cCfg : DesignConfig := ⟨3, 6, 3, 3, -1000, 1000, 0⟩

/-!
Helper lemmas.
-/

/-- Uppercasing an ASCII letter yields an ASCII letter. -/
theorem isAlpha_toUpper {c : Char} (h : c.isAlpha) : (Char.toUpper c).isAlpha := by
  simp only [Char.isAlpha, Char.isUpper, Char.isLower, Bool.or_eq_true, Bool.and_eq_true,
    decide_eq_true_eq] at h
  unfold Char.toUpper
  rcases h with ⟨h1, h2⟩ | ⟨h1, h2⟩
  · have hno : ¬ (c.toNat ≥ 97 ∧ c.toNat ≤ 122) := by
      rintro ⟨h3, _⟩
      have h5 : c.toNat ≤ 90 := h2
      omega
    rw [if_neg hno]
    simp only [Char.isAlpha, Char.isUpper, Char.isLower, Bool.or_eq_true, Bool.and_eq_true,
      decide_eq_true_eq]
    exact Or.inl ⟨h1, h2⟩
  · have hge : c.toNat ≥ 97 := h1
    have hle : c.toNat ≤ 122 := h2
    rw [if_pos ⟨hge, hle⟩]
    have hv : (c.toNat - 32).isValidChar := by
      left
      omega
    have ht : (Char.ofNat (c.toNat - 32)).toNat = c.toNat - 32 := by
      unfold Char.ofNat
      rw [dif_pos hv]
      rfl
    simp only [Char.isAlpha, Char.isUpper, Char.isLower, Bool.or_eq_true, Bool.and_eq_true,
      decide_eq_true_eq]
    left
    constructor
    · show (65 : ℕ) ≤ (Char.ofNat (c.toNat - 32)).toNat
      omega
    · show (Char.ofNat (c.toNat - 32)).toNat ≤ (90 : ℕ)
      omega

/-- Every character of a cleaned sequence is an ASCII letter. -/
theorem mem_cleanSequence_isAlpha {c : Char} {s : List Char} (h : c ∈ cleanSequence s) :
    c.isAlpha := by
  unfold cleanSequence at h
  rw [List.mem_map] at h
  obtain ⟨a, ha, rfl⟩ := h
  exact isAlpha_toUpper (List.of_mem_filter ha)

/-- Cleaning a list of ASCII letters does not change its length. -/
theorem cleanSequence_length_of_alpha {s : List Char} (h : ∀ c ∈ s, c.isAlpha) :
    (cleanSequence s).length = s.length := by
  unfold cleanSequence
  rw [List.filter_eq_self.mpr h, List.length_map]

/-- `getComplement` always returns an ASCII letter. -/
theorem isAlpha_getComplement (b : Char) : (getComplement b).isAlpha := by
  unfold getComplement
  split_ifs <;> decide

/-- A valid `calculatePrimerProps` result carries the cleaned input, which is
then nonempty, and its `length` field is the cleaned length. -/
theorem calculatePrimerProps_isValid {rln rlog10 : ℚ → ℚ} {raw : List Char} {conc : ℚ}
    (h : (calculatePrimerProps rln rlog10 raw conc).isValid = true) :
    (calculatePrimerProps rln rlog10 raw conc).cleanSeq = cleanSequence raw ∧
      cleanSequence raw ≠ [] ∧
      (calculatePrimerProps rln rlog10 raw conc).length = (cleanSequence raw).length := by
  simp only [calculatePrimerProps] at h ⊢
  split_ifs at h ⊢ with h1 h2 <;> exact ⟨rfl, h1, rfl⟩

/-!
Claims C6, C7, C8, C9.
-/

/-- Claim C6: for every template whose cleaned length is strictly less than
`minProd`, and every remaining configuration, `designPrimers` returns `[]`. -/
theorem claim_C6_short_template (rln rlog10 : ℚ → ℚ) (template : List Char) (cfg : DesignConfig)
    (h : (cleanSequence template).length < cfg.minProd) :
    designPrimers rln rlog10 template cfg = [] := by
  simp only [designPrimers]
  rw [if_pos h]

theorem claim_C6_witness :
    (cleanSequence "ATGCATGCAT".toList).length < (100 : ℕ) ∧
      designPrimers zfn zfn "ATGCATGCAT".toList ⟨100, 1000, 18, 24, 55, 65, 60⟩ = [] :=
  ⟨by decide, claim_C6_short_template zfn zfn "ATGCATGCAT".toList ⟨100, 1000, 18, 24, 55, 65, 60⟩
    (by decide)⟩

/-- Claim C7: the reverse-complement operation is an involution on sequences
over the alphabet {A, T, G, C}. -/
theorem claim_C7_revcomp_involution (s : List Char)
    (h : ∀ ch ∈ s, ch = 'A' ∨ ch = 'T' ∨ ch = 'G' ∨ ch = 'C') :
    reverseComplement (reverseComplement s) = s := by
  unfold reverseComplement
  rw [← List.map_reverse, List.reverse_reverse, List.map_map]
  have hid : ∀ ch ∈ s, (getComplement ∘ getComplement) ch = id ch := by
    intro ch hch
    rcases h ch hch with rfl | rfl | rfl | rfl <;> rfl
  rw [List.map_congr_left hid, List.map_id]

theorem claim_C7_witness :
    (∀ ch ∈ "ATGC".toList, ch = 'A' ∨ ch = 'T' ∨ ch = 'G' ∨ ch = 'C') ∧
      reverseComplement (reverseComplement "ATGC".toList) = "ATGC".toList :=
  ⟨by decide, claim_C7_revcomp_involution "ATGC".toList (by decide)⟩

/-- Claim C8 (amended): two raw inputs with the same cleaned sequence yield
records that agree on every field except the `seq` field, which echoes the raw
input (so the full records are generally not identical). -/
theorem claim_C8_clean_invariance (rln rlog10 : ℚ → ℚ) (r1 r2 : List Char) (c : ℚ)
    (h : cleanSequence r1 = cleanSequence r2) :
    (calculatePrimerProps rln rlog10 r1 c).cleanSeq = (calculatePrimerProps rln rlog10 r2 c).cleanSeq ∧
    (calculatePrimerProps rln rlog10 r1 c).length = (calculatePrimerProps rln rlog10 r2 c).length ∧
    (calculatePrimerProps rln rlog10 r1 c).gc = (calculatePrimerProps rln rlog10 r2 c).gc ∧
    (calculatePrimerProps rln rlog10 r1 c).tmBasic = (calculatePrimerProps rln rlog10 r2 c).tmBasic ∧
    (calculatePrimerProps rln rlog10 r1 c).tmNN = (calculatePrimerProps rln rlog10 r2 c).tmNN ∧
    (calculatePrimerProps rln rlog10 r1 c).molecularWeight
      = (calculatePrimerProps rln rlog10 r2 c).molecularWeight ∧
    (calculatePrimerProps rln rlog10 r1 c).isValid = (calculatePrimerProps rln rlog10 r2 c).isValid ∧
    (calculatePrimerProps rln rlog10 r1 c).error = (calculatePrimerProps rln rlog10 r2 c).error := by
  simp only [calculatePrimerProps]
  rw [h]
  split_ifs <;> exact ⟨rfl, rfl, rfl, rfl, rfl, rfl, rfl, rfl⟩

unseal Rat.add Rat.sub Rat.mul Rat.inv Rat.ofScientific in
theorem claim_C8_witness :
    cleanSequence "1 agct".toList = cleanSequence "agct".toList ∧
      (calculatePrimerProps zfn zfn "1 agct".toList 500).tmNN
        = (calculatePrimerProps zfn zfn "agct".toList 500).tmNN :=
  ⟨by decide, (claim_C8_clean_invariance zfn zfn "1 agct".toList "agct".toList 500
    (by decide)).2.2.2.2.1⟩

unseal Rat.add Rat.sub Rat.mul Rat.inv Rat.ofScientific in
theorem claim_C8_counterexample :
    cleanSequence "agct".toList = cleanSequence "AGCT".toList ∧
      calculatePrimerProps zfn zfn "agct".toList 500
        ≠ calculatePrimerProps zfn zfn "AGCT".toList 500 := by
  decide

/-- Claim C9: a cleaned template length exactly equal to `minProd` passes the
early-return check, but the forward loop (`i < len - minProd`) enumerates no
start index, so no candidate and hence no pair is produced. -/
theorem claim_C9_exact_length (rln rlog10 : ℚ → ℚ) (template : List Char) (cfg : DesignConfig)
    (h : (cleanSequence template).length = cfg.minProd) :
    forwardCandidates rln rlog10 (cleanSequence template) cfg = [] ∧
      designPrimers rln rlog10 template cfg = [] := by
  have hf : forwardCandidates rln rlog10 (cleanSequence template) cfg = [] := by
    unfold forwardCandidates
    rw [h, Nat.sub_self]
    rfl
  refine ⟨hf, ?_⟩
  simp only [designPrimers]
  rw [if_neg (by omega), hf]
  simp [List.mergeSort_nil]

theorem claim_C9_witness :
    (cleanSequence "ATGGGCAT".toList).length = (8 : ℕ) ∧
      designPrimers zfn zfn "ATGGGCAT".toList ⟨8, 8, 3, 3, 55, 65, 60⟩ = [] :=
  ⟨by decide, (claim_C9_exact_length zfn zfn "ATGGGCAT".toList ⟨8, 8, 3, 3, 55, 65, 60⟩
    (by decide)).2⟩

/-!
Decomposition of membership in `designPrimers` output.
-/

/-- A constructed pair records its two candidates and satisfies every guard of
the pairing loop. -/
theorem mkPair_some {cfg : DesignConfig} {f r : CandidatePrimer} {p : PrimerPair}
    (h : mkPair cfg f r = some p) :
    p.forward = f ∧ p.reverse = r ∧ pairInvariant cfg p := by
  simp only [mkPair] at h
  split_ifs at h with h1 h2 h3 h4 h5 <;>
    · rw [Option.some.injEq] at h
      subst h
      push_neg at h1 h2 h3 h4 h5
      unfold pairInvariant
      exact ⟨rfl, rfl, h1, rfl, h2.1, h2.2, h3.1, h3.2, h4.1, h4.2, h5⟩

/-- Every pair in the output of `designPrimers` arises from a forward and a
reverse candidate via `mkPair`. -/
theorem mem_designPrimers {rln rlog10 : ℚ → ℚ} {template : List Char} {cfg : DesignConfig}
    {p : PrimerPair} (hp : p ∈ designPrimers rln rlog10 template cfg) :
    ∃ f ∈ forwardCandidates rln rlog10 (cleanSequence template) cfg,
      ∃ r ∈ reverseCandidates rln rlog10 (cleanSequence template) cfg,
        mkPair cfg f r = some p := by
  simp only [designPrimers] at hp
  by_cases h : (cleanSequence template).length < cfg.minProd
  · rw [if_pos h] at hp
    cases hp
  · rw [if_neg h] at hp
    have hp1 := List.mem_mergeSort.mp (List.mem_of_mem_take hp)
    rw [List.mem_flatMap] at hp1
    obtain ⟨f, hf, hp2⟩ := hp1
    rw [List.mem_filterMap] at hp2
    obtain ⟨r, hr, hmk⟩ := hp2
    exact ⟨f, List.mem_mergeSort.mp (List.mem_of_mem_take hf),
      r, List.mem_mergeSort.mp (List.mem_of_mem_take hr), hmk⟩

/-- Every forward candidate arises from a start index and length visited by the
loose-scan loops, with its guards true. -/
theorem mem_forwardCandidates {rln rlog10 : ℚ → ℚ} {seq : List Char} {cfg : DesignConfig}
    {c : CandidatePrimer} (h : c ∈ forwardCandidates rln rlog10 seq cfg) :
    ∃ i l, i < seq.length - cfg.minProd ∧ cfg.minLen ≤ l ∧ l ≤ cfg.maxLen ∧
      i + l ≤ seq.length ∧ tmPrefilter cfg (fwdProps rln rlog10 seq i l) = true ∧
      c = mkForward rln rlog10 seq i l := by
  unfold forwardCandidates at h
  rw [List.mem_flatMap] at h
  obtain ⟨i, hi, h⟩ := h
  rw [List.mem_range] at hi
  rw [List.mem_filterMap] at h
  obtain ⟨l, hl, h⟩ := h
  unfold lenRange at hl
  rw [List.mem_range'_1] at hl
  split_ifs at h with h1 h2
  rw [Option.some.injEq] at h
  exact ⟨i, l, hi, hl.1, by omega, by omega, h2, h.symm⟩

/-- Every reverse candidate arises from an end index and length visited by the
reverse loops, with its guards true. -/
theorem mem_reverseCandidates {rln rlog10 : ℚ → ℚ} {seq : List Char} {cfg : DesignConfig}
    {c : CandidatePrimer} (h : c ∈ reverseCandidates rln rlog10 seq cfg) :
    ∃ i l, cfg.minProd ≤ i ∧ i < seq.length ∧ cfg.minLen ≤ l ∧ l ≤ cfg.maxLen ∧ l ≤ i ∧
      tmPrefilter cfg (revProps rln rlog10 seq i l) = true ∧
      c = mkReverse rln rlog10 seq i l := by
  unfold reverseCandidates at h
  rw [List.mem_flatMap] at h
  obtain ⟨i, hi, h⟩ := h
  rw [List.mem_range'_1] at hi
  rw [List.mem_filterMap] at h
  obtain ⟨l, hl, h⟩ := h
  unfold lenRange at hl
  rw [List.mem_range'_1] at hl
  split_ifs at h with h1 h2
  rw [Option.some.injEq] at h
  exact ⟨i, l, hi.1, by omega, hl.1, by omega, by omega, h2, h.symm⟩

/-- The converse: every index/length within the loop ranges whose pre-filter
passes yields a member of `forwardCandidates`. -/
theorem mkForward_mem_forwardCandidates {rln rlog10 : ℚ → ℚ} {seq : List Char}
    {cfg : DesignConfig} {i l : ℕ} (hi : i < seq.length - cfg.minProd)
    (hl1 : cfg.minLen ≤ l) (hl2 : l ≤ cfg.maxLen) (hil : i + l ≤ seq.length)
    (hf : tmPrefilter cfg (fwdProps rln rlog10 seq i l) = true) :
    mkForward rln rlog10 seq i l ∈ forwardCandidates rln rlog10 seq cfg := by
  unfold forwardCandidates
  rw [List.mem_flatMap]
  refine ⟨i, List.mem_range.mpr hi, ?_⟩
  rw [List.mem_filterMap]
  refine ⟨l, ?_, ?_⟩
  · unfold lenRange
    rw [List.mem_range'_1]
    omega
  · rw [if_neg (by omega), if_pos hf]

/-- The cleaned sequence of a valid forward candidate over an all-letter
template has exactly the enumerated length. -/
theorem fwdProps_cleanSeq_length {rln rlog10 : ℚ → ℚ} {seq : List Char} {i l : ℕ}
    (hα : ∀ c ∈ seq, c.isAlpha) (hil : i + l ≤ seq.length)
    (hv : (fwdProps rln rlog10 seq i l).isValid = true) :
    (fwdProps rln rlog10 seq i l).cleanSeq.length = l ∧ 1 ≤ l := by
  unfold fwdProps at hv ⊢
  obtain ⟨hc, hne, _⟩ := calculatePrimerProps_isValid hv
  have hsub : ∀ c ∈ fwdPrimerSeq seq i l, c.isAlpha := by
    intro c hcmem
    refine hα c ?_
    exact ((List.take_sublist _ _).trans (List.drop_sublist _ _)).subset hcmem
  have hlen : (fwdPrimerSeq seq i l).length = l := by
    unfold fwdPrimerSeq jsSubstring
    rw [List.length_take, List.length_drop]
    omega
  have h1 : (calculatePrimerProps rln rlog10 (fwdPrimerSeq seq i l) 500).cleanSeq.length = l := by
    rw [hc, cleanSequence_length_of_alpha hsub, hlen]
  refine ⟨h1, ?_⟩
  have h2 : (cleanSequence (fwdPrimerSeq seq i l)).length ≠ 0 := by
    intro h0
    exact hne (List.eq_nil_of_length_eq_zero h0)
  rw [hc] at h1
  omega

/-- The cleaned sequence of a valid reverse candidate has exactly the
enumerated length (its characters are complement outputs, hence letters). -/
theorem revProps_cleanSeq_length {rln rlog10 : ℚ → ℚ} {seq : List Char} {i l : ℕ}
    (hl : l ≤ i) (hi : i < seq.length)
    (hv : (revProps rln rlog10 seq i l).isValid = true) :
    (revProps rln rlog10 seq i l).cleanSeq.length = l ∧ 1 ≤ l := by
  unfold revProps at hv ⊢
  obtain ⟨hc, hne, _⟩ := calculatePrimerProps_isValid hv
  have hsub : ∀ c ∈ revPrimerSeq seq i l, c.isAlpha := by
    intro c hcmem
    unfold revPrimerSeq reverseComplement at hcmem
    rw [List.mem_map] at hcmem
    obtain ⟨a, _, rfl⟩ := hcmem
    exact isAlpha_getComplement a
  have hlen : (revPrimerSeq seq i l).length = l := by
    unfold revPrimerSeq reverseComplement revTemplateSegment jsSubstring
    rw [List.length_map, List.length_reverse, List.length_take, List.length_drop]
    omega
  have h1 : (calculatePrimerProps rln rlog10 (revPrimerSeq seq i l) 500).cleanSeq.length = l := by
    rw [hc, cleanSequence_length_of_alpha hsub, hlen]
  refine ⟨h1, ?_⟩
  have h2 : (cleanSequence (revPrimerSeq seq i l)).length ≠ 0 := by
    intro h0
    exact hne (List.eq_nil_of_length_eq_zero h0)
  rw [hc] at h1
  omega

/-- When the loose scans produce exactly one forward and one reverse candidate,
`designPrimers` reduces to the single tentative pair (used by witnesses to
evaluate the pipeline without unfolding `mergeSort` on long lists). -/
theorem designPrimers_single_candidates (rln rlog10 : ℚ → ℚ) (template : List Char)
    (cfg : DesignConfig) (f r : CandidatePrimer)
    (h1 : ¬ ((cleanSequence template).length < cfg.minProd))
    (hF : forwardCandidates rln rlog10 (cleanSequence template) cfg = [f])
    (hR : reverseCandidates rln rlog10 (cleanSequence template) cfg = [r]) :
    designPrimers rln rlog10 template cfg = (mkPair cfg f r).toList := by
  simp only [designPrimers]
  rw [if_neg h1, hF, hR, List.mergeSort_singleton, List.mergeSort_singleton]
  cases hmk : mkPair cfg f r <;>
    simp [hmk, List.mergeSort_nil, List.mergeSort_singleton, MAX_CANDIDATES]

/-- Claim C1: every pair returned by `designPrimers` satisfies the pairing
invariant — `reverse.end > forward.start`, `productSize = reverse.end -
forward.start + 1` within `[minProd, maxProd]`, both Tm within
`[minTm, maxTm]`, and Tm difference at most 5 °C. -/
theorem claim_C1_pair_invariant (rln rlog10 : ℚ → ℚ) (template : List Char) (cfg : DesignConfig)
    (p : PrimerPair) (hp : p ∈ designPrimers rln rlog10 template cfg) :
    pairInvariant cfg p := by
  obtain ⟨f, _, r, _, hmk⟩ := mem_designPrimers hp
  exact (mkPair_some hmk).2.2

unseal Rat.add Rat.sub Rat.mul Rat.inv Rat.ofScientific in
theorem claim_C1_witness :
    (designPrimers zfn zfn wTemplate wCfg).headI ∈ designPrimers zfn zfn wTemplate wCfg ∧
      pairInvariant wCfg ((designPrimers zfn zfn wTemplate wCfg).headI) := by
  have hD : designPrimers zfn zfn wTemplate wCfg =
      (mkPair wCfg (mkForward zfn zfn (cleanSequence wTemplate) 0 3)
        (mkReverse zfn zfn (cleanSequence wTemplate) 7 3)).toList :=
    designPrimers_single_candidates zfn zfn wTemplate wCfg _ _ (by decide) (by decide) (by decide)
  have hmem : (designPrimers zfn zfn wTemplate wCfg).headI
      ∈ designPrimers zfn zfn wTemplate wCfg := by
    rw [hD]
    decide
  exact ⟨hmem, claim_C1_pair_invariant zfn zfn wTemplate wCfg _ hmem⟩

/-- Claim C10: every returned pair has a sense forward primer and an antisense
reverse primer, each spanning exactly its cleaned sequence, whose length lies
within `[minLen, maxLen]`. -/
theorem claim_C10_pair_shape (rln rlog10 : ℚ → ℚ) (template : List Char) (cfg : DesignConfig)
    (p : PrimerPair) (hp : p ∈ designPrimers rln rlog10 template cfg) :
    pairShape cfg p := by
  obtain ⟨f, hf, r, hr, hmk⟩ := mem_designPrimers hp
  obtain ⟨hpf, hpr, _⟩ := mkPair_some hmk
  obtain ⟨i, l, hi, hl1, hl2, hil, hfil, hfeq⟩ := mem_forwardCandidates hf
  obtain ⟨j, m, hjP, hj, hm1, hm2, hmj, hrfil, hreq⟩ := mem_reverseCandidates hr
  have hαt : ∀ c ∈ cleanSequence template, c.isAlpha := fun c hc => mem_cleanSequence_isAlpha hc
  have hv1 : (fwdProps rln rlog10 (cleanSequence template) i l).isValid = true := by
    simp only [tmPrefilter, Bool.and_eq_true] at hfil
    exact hfil.1.1
  have hv2 : (revProps rln rlog10 (cleanSequence template) j m).isValid = true := by
    simp only [tmPrefilter, Bool.and_eq_true] at hrfil
    exact hrfil.1.1
  obtain ⟨hL1, hge1⟩ := fwdProps_cleanSeq_length hαt hil hv1
  obtain ⟨hL2, hge2⟩ := revProps_cleanSeq_length hmj hj hv2
  unfold pairShape
  rw [hpf, hfeq, hpr, hreq]
  simp only [mkForward, mkReverse]
  refine ⟨by trivial, by trivial, ?_, ?_, ?_, ?_, ?_, ?_⟩
  · rw [hL1]
    omega
  · rw [hL2]
    omega
  · rw [hL1]
    exact hl1
  · rw [hL1]
    exact hl2
  · rw [hL2]
    exact hm1
  · rw [hL2]
    exact hm2

unseal Rat.add Rat.sub Rat.mul Rat.inv Rat.ofScientific in
theorem claim_C10_witness :
    (designPrimers zfn zfn wTemplate wCfg).headI ∈ designPrimers zfn zfn wTemplate wCfg ∧
      pairShape wCfg ((designPrimers zfn zfn wTemplate wCfg).headI) := by
  have hD : designPrimers zfn zfn wTemplate wCfg =
      (mkPair wCfg (mkForward zfn zfn (cleanSequence wTemplate) 0 3)
        (mkReverse zfn zfn (cleanSequence wTemplate) 7 3)).toList :=
    designPrimers_single_candidates zfn zfn wTemplate wCfg _ _ (by decide) (by decide) (by decide)
  have hmem : (designPrimers zfn zfn wTemplate wCfg).headI
      ∈ designPrimers zfn zfn wTemplate wCfg := by
    rw [hD]
    decide
  exact ⟨hmem, claim_C10_pair_shape zfn zfn wTemplate wCfg _ hmem⟩

/-- Claim C3: for every template and configuration the result is sorted
ascending by `score` (hence `results[i].score ≤ results[i+1].score`) and
contains at most 20 pairs. -/
theorem claim_C3_sorted_top20 (rln rlog10 : ℚ → ℚ) (template : List Char) (cfg : DesignConfig) :
    (designPrimers rln rlog10 template cfg).length ≤ 20 ∧
      List.Pairwise (fun a b => a.score ≤ b.score) (designPrimers rln rlog10 template cfg) := by
  simp only [designPrimers]
  by_cases h : (cleanSequence template).length < cfg.minProd
  · rw [if_pos h]
    exact ⟨by simp, List.Pairwise.nil⟩
  · rw [if_neg h]
    have htrans : ∀ a b c : PrimerPair,
        scoreLe a b = true → scoreLe b c = true → scoreLe a c = true := by
      intro a b c hab hbc
      simp only [scoreLe, decide_eq_true_eq] at hab hbc ⊢
      exact le_trans hab hbc
    have htotal : ∀ a b : PrimerPair, (scoreLe a b || scoreLe b a) = true := by
      intro a b
      simp only [scoreLe, Bool.or_eq_true, decide_eq_true_eq]
      exact le_total a.score b.score
    refine ⟨List.length_take_le 20 _, ?_⟩
    refine List.Pairwise.imp ?_
      (List.Pairwise.sublist (List.take_sublist 20 _) (List.sorted_mergeSort htrans htotal _))
    intro a b hab
    simpa [scoreLe] using hab

/-- Claim C4 (amended): an input whose cleaned form is empty or has a non-ATGC
character yields `isValid = false` with `gc`, `tmBasic`, `tmNN` and
`molecularWeight` zero, while `length` echoes the cleaned length (zero exactly
in the empty case); the function is total, so it never throws. -/
theorem claim_C4_invalid_record (rln rlog10 : ℚ → ℚ) (raw : List Char) (c : ℚ)
    (h : cleanSequence raw = [] ∨
      ∃ ch ∈ cleanSequence raw, ¬(ch = 'A' ∨ ch = 'T' ∨ ch = 'G' ∨ ch = 'C')) :
    (calculatePrimerProps rln rlog10 raw c).isValid = false ∧
    (calculatePrimerProps rln rlog10 raw c).gc = 0 ∧
    (calculatePrimerProps rln rlog10 raw c).tmBasic = 0 ∧
    (calculatePrimerProps rln rlog10 raw c).tmNN = 0 ∧
    (calculatePrimerProps rln rlog10 raw c).molecularWeight = 0 ∧
    (calculatePrimerProps rln rlog10 raw c).length = (cleanSequence raw).length := by
  simp only [calculatePrimerProps]
  by_cases h1 : cleanSequence raw = []
  · rw [if_pos h1]
    refine ⟨rfl, rfl, rfl, rfl, rfl, ?_⟩
    rw [h1]
    rfl
  · rw [if_neg h1]
    have h2 : ((cleanSequence raw).any
        fun ch => !(decide (ch = 'A' ∨ ch = 'T' ∨ ch = 'G' ∨ ch = 'C'))) = true := by
      rcases h with h | ⟨ch, hch, hne⟩
      · exact absurd h h1
      · rw [List.any_eq_true]
        exact ⟨ch, hch, by simpa using hne⟩
    rw [if_pos h2]
    exact ⟨rfl, rfl, rfl, rfl, rfl, rfl⟩

theorem claim_C4_witness :
    (∃ ch ∈ cleanSequence "ATGX".toList, ¬(ch = 'A' ∨ ch = 'T' ∨ ch = 'G' ∨ ch = 'C')) ∧
      (calculatePrimerProps zfn zfn "ATGX".toList 500).isValid = false ∧
      (calculatePrimerProps zfn zfn "ATGX".toList 500).length
        = (cleanSequence "ATGX".toList).length :=
  ⟨by decide, ((claim_C4_invalid_record zfn zfn "ATGX".toList 500 (Or.inr (by decide))).1),
    ((claim_C4_invalid_record zfn zfn "ATGX".toList 500 (Or.inr (by decide))).2.2.2.2.2)⟩

theorem claim_C4_counterexample :
    ('X' ∈ cleanSequence "ATGX".toList ∧ ¬('X' = 'A' ∨ 'X' = 'T' ∨ 'X' = 'G' ∨ 'X' = 'C')) ∧
      (calculatePrimerProps zfn zfn "ATGX".toList 500).isValid = false ∧
      (calculatePrimerProps zfn zfn "ATGX".toList 500).length ≠ 0 := by
  decide

/-- Claim C5 (amended): for every start index `i` with
`0 ≤ i < length - minProd` (the source loop's `i < len - minProd`, so the
upper endpoint `i = length - minProd` is NOT visited) and every length
`l ∈ [minLen, maxLen]` with `i + l ≤ length`, the substring candidate is
retained exactly when it is valid and its Tm lies in the widened window
`[minTm - 5, maxTm + 5]`. -/
theorem claim_C5_loose_scan (rln rlog10 : ℚ → ℚ) (template : List Char) (cfg : DesignConfig)
    (i l : ℕ) (hi : i < (cleanSequence template).length - cfg.minProd)
    (hl1 : cfg.minLen ≤ l) (hl2 : l ≤ cfg.maxLen)
    (hil : i + l ≤ (cleanSequence template).length) :
    mkForward rln rlog10 (cleanSequence template) i l
        ∈ forwardCandidates rln rlog10 (cleanSequence template) cfg
      ↔ ((fwdProps rln rlog10 (cleanSequence template) i l).isValid = true ∧
         cfg.minTm - 5 ≤ (fwdProps rln rlog10 (cleanSequence template) i l).tmNN ∧
         (fwdProps rln rlog10 (cleanSequence template) i l).tmNN ≤ cfg.maxTm + 5) := by
  constructor
  · intro hmem
    obtain ⟨i2, l2, _, _, _, _, hfil2, heq⟩ := mem_forwardCandidates hmem
    have hPR := congrArg CandidatePrimer.toPrimerResult heq
    simp only [mkForward] at hPR
    rw [hPR]
    simp only [tmPrefilter, Bool.and_eq_true, decide_eq_true_eq] at hfil2
    exact ⟨hfil2.1.1, hfil2.1.2, hfil2.2⟩
  · intro hcond
    refine mkForward_mem_forwardCandidates hi hl1 hl2 hil ?_
    simp only [tmPrefilter, Bool.and_eq_true, decide_eq_true_eq]
    exact ⟨⟨hcond.1, hcond.2.1⟩, hcond.2.2⟩

unseal Rat.add Rat.sub Rat.mul Rat.inv Rat.ofScientific in
theorem claim_C5_witness :
    ((0 : ℕ) < (cleanSequence cTemplate).length - cCfg.minProd ∧ cCfg.minLen ≤ 3 ∧
      (3 : ℕ) ≤ cCfg.maxLen ∧ 0 + 3 ≤ (cleanSequence cTemplate).length) ∧
      (mkForward zfn zfn (cleanSequence cTemplate) 0 3
          ∈ forwardCandidates zfn zfn (cleanSequence cTemplate) cCfg
        ↔ ((fwdProps zfn zfn (cleanSequence cTemplate) 0 3).isValid = true ∧
           cCfg.minTm - 5 ≤ (fwdProps zfn zfn (cleanSequence cTemplate) 0 3).tmNN ∧
           (fwdProps zfn zfn (cleanSequence cTemplate) 0 3).tmNN ≤ cCfg.maxTm + 5)) :=
  ⟨by decide, claim_C5_loose_scan zfn zfn cTemplate cCfg 0 3 (by decide) (by decide) (by decide)
    (by decide)⟩

unseal Rat.add Rat.sub Rat.mul Rat.inv Rat.ofScientific in
theorem claim_C5_counterexample :
    ((3 : ℕ) = (cleanSequence cTemplate).length - cCfg.minProd ∧ cCfg.minLen ≤ 3 ∧
      (3 : ℕ) ≤ cCfg.maxLen ∧ 3 + 3 ≤ (cleanSequence cTemplate).length) ∧
      ((fwdProps zfn zfn (cleanSequence cTemplate) 3 3).isValid = true ∧
        cCfg.minTm - 5 ≤ (fwdProps zfn zfn (cleanSequence cTemplate) 3 3).tmNN ∧
        (fwdProps zfn zfn (cleanSequence cTemplate) 3 3).tmNN ≤ cCfg.maxTm + 5) ∧
      mkForward zfn zfn (cleanSequence cTemplate) 3 3
        ∉ forwardCandidates zfn zfn (cleanSequence cTemplate) cCfg := by
  decide

/-- The source's dinucleotide loop computes exactly the spec's sum of table ΔH
over adjacent windows (a missing key contributes nothing on either side). -/
theorem nnFold_dH : ∀ s : List Char,
    (nnFold s).dH = ((adjacentPairs s).map fun ab => ((NN_PARAMS ab.1 ab.2).getD ⟨0, 0⟩).dH).sum
  | [] => by simp [nnFold, adjacentPairs]
  | [a] => by simp [nnFold, adjacentPairs]
  | a :: b :: rest => by
    have ih := nnFold_dH (b :: rest)
    have hstep : adjacentPairs (a :: b :: rest) = (a, b) :: adjacentPairs (b :: rest) := rfl
    rw [hstep, List.map_cons, List.sum_cons, ← ih]
    simp only [nnFold]
    cases hx : NN_PARAMS a b
    · simp [hx]
    · simp [hx]
      ring

/-- Same as `nnFold_dH` for the entropy component. -/
theorem nnFold_dS : ∀ s : List Char,
    (nnFold s).dS = ((adjacentPairs s).map fun ab => ((NN_PARAMS ab.1 ab.2).getD ⟨0, 0⟩).dS).sum
  | [] => by simp [nnFold, adjacentPairs]
  | [a] => by simp [nnFold, adjacentPairs]
  | a :: b :: rest => by
    have ih := nnFold_dS (b :: rest)
    have hstep : adjacentPairs (a :: b :: rest) = (a, b) :: adjacentPairs (b :: rest) := rfl
    rw [hstep, List.map_cons, List.sum_cons, ← ih]
    simp only [nnFold]
    cases hx : NN_PARAMS a b
    · simp [hx]
    · simp [hx]
      ring

/-- Claim C2: on every validated input (nonempty, all-ATGC clean form) and
every concentration, the computed `tmNN` equals the spec's closed form:
initiation penalties for both terminal bases plus the SantaLucia dinucleotide
sums, `Tm = (ΔH×1000)/(ΔS + 1.987×ln((c×1e-9)/4)) − 273.15 + 16.6×log10(0.05)`. -/
theorem claim_C2_tm_formula (rln rlog10 : ℚ → ℚ) (raw : List Char) (c : ℚ)
    (h1 : cleanSequence raw ≠ [])
    (h2 : ∀ ch ∈ cleanSequence raw, ch = 'A' ∨ ch = 'T' ∨ ch = 'G' ∨ ch = 'C') :
    (calculatePrimerProps rln rlog10 raw c).tmNN = specTmNN rln rlog10 (cleanSequence raw) c := by
  have hany : ((cleanSequence raw).any
      fun ch => !(decide (ch = 'A' ∨ ch = 'T' ∨ ch = 'G' ∨ ch = 'C'))) ≠ true := by
    intro hcon
    rw [List.any_eq_true] at hcon
    obtain ⟨ch, hch, hne⟩ := hcon
    simp only [Bool.not_eq_eq_eq_not, Bool.not_true, decide_eq_false_iff_not] at hne
    exact hne (h2 ch hch)
  have hsalt : (DEFAULT_CONC_NA_MM / 1000 : ℚ) = 0.05 := by
    norm_num [DEFAULT_CONC_NA_MM]
  simp only [calculatePrimerProps]
  rw [if_neg h1, if_neg hany]
  unfold specTmNN spec_dH spec_dS specInit
  rw [← nnFold_dH, ← nnFold_dS, hsalt]

unseal Rat.add Rat.sub Rat.mul Rat.inv Rat.ofScientific in
theorem claim_C2_witness :
    (cleanSequence "GAATTC".toList ≠ [] ∧
      ∀ ch ∈ cleanSequence "GAATTC".toList, ch = 'A' ∨ ch = 'T' ∨ ch = 'G' ∨ ch = 'C') ∧
      (calculatePrimerProps zfn zfn "GAATTC".toList 500).tmNN
        = specTmNN zfn zfn (cleanSequence "GAATTC".toList) 500 :=
  ⟨⟨by decide, by decide⟩,
    claim_C2_tm_formula zfn zfn "GAATTC".toList 500 (by decide) (by decide)⟩
